import Mathlib

set_option maxRecDepth 8000

/-!
Verification of the PyBrush canvas/tool engine (`pybrush.py`).

The Python source is shallowly embedded: the drawing canvas is a function
from integer coordinates to RGB colors, the pygame surface primitives
(`get_at`, `set_at`, `blit`, `pygame.draw.line` / `rect` / `circle`) are
explicit Lean functions, and the event-driven main loop becomes a step
function on an explicit record of the script's global drawing state.
Fallible surface accesses (pygame raises `IndexError` on an out-of-range
`get_at`/`set_at`) return `Option`.
-/

/-- RGB color triple, as the source's `(r, g, b)` tuples.  The pygame
surface is opaque, so the alpha component carried by `Surface.get_at`
is constantly 255 and is omitted from the model. -/
abbrev Color := ℕ × ℕ × ℕ

/-- A canvas-local pixel coordinate.  `fill_bucket` enqueues unclipped
neighbor coordinates, so coordinates range over all of `ℤ × ℤ`. -/
abbrev Point := ℤ × ℤ

def WHITE : Color := (255, 255, 255)

def BLACK : Color := (0, 0, 0)

def RED : Color := (255, 0, 0)

/-- `CANVAS_WIDTH` from the source. -/
def CANVAS_WIDTH : ℤ := 800

/-- `CANVAS_HEIGHT` from the source. -/
def CANVAS_HEIGHT : ℤ := 600

/-- The canvas raster: the color stored at each coordinate.  A pygame
surface stores only the pixels inside `[0, CANVAS_WIDTH) × [0, CANVAS_HEIGHT)`;
the model extends the raster to all of `ℤ × ℤ` and every theorem about
displayed pixels is stated for in-bounds coordinates. -/
abbrev Canvas := Point → Color

/-- The bounds test `0 <= x < CANVAS_WIDTH and 0 <= y < CANVAS_HEIGHT`
used both for `canvas_mouse_pos` and inside `fill_bucket`. -/
def inBounds (p : Point) : Prop :=
  0 ≤ p.1 ∧ p.1 < CANVAS_WIDTH ∧ 0 ≤ p.2 ∧ p.2 < CANVAS_HEIGHT

instance (p : Point) : Decidable (inBounds p) := by
  unfold inBounds; infer_instance

/-- `Surface.get_at`: reading an out-of-range pixel raises `IndexError`,
modelled as `none`. -/
def get_at (c : Canvas) (p : Point) : Option Color :=
  if inBounds p then some (c p) else none

/-- `Surface.set_at`: writing an out-of-range pixel raises `IndexError`,
modelled as `none`; otherwise returns the updated raster. -/
def set_at (c : Canvas) (p : Point) (col : Color) : Option Canvas :=
  if inBounds p then some (fun q => if q = p then col else c q) else none

/-- The neighbor offsets `[(1, 0), (-1, 0), (0, 1), (0, -1)]` applied to
a cell, in source order.  Orthogonal (4-connected) adjacency only. -/
def neighbors (p : Point) : List Point :=
  [(p.1 + 1, p.2), (p.1 - 1, p.2), (p.1, p.2 + 1), (p.1, p.2 - 1)]

/-- The inner loop of `fill_bucket`'s neighbor scan: for each adjacent
position, if it is not in `visited`, add it to `visited` and append it to
the right end of the queue. -/
def pushList (ns : List Point) (q : List Point) (v : Finset Point) :
    List Point × Finset Point :=
  match ns with
  | [] => (q, v)
  | n :: ns => if n ∈ v then pushList ns q v else pushList ns (q ++ [n]) (insert n v)

/-- The `while queue:` loop of `fill_bucket`.  Each iteration pops the left
end of the queue; out-of-bounds coordinates are skipped before any surface
access.  `fuel` is an upper bound on the number of iterations (the source
loop terminates because every coordinate is enqueued at most once); running
out of fuel yields `none`, and the termination theorems show the chosen
fuel is never exhausted.  The `cnt` accumulator instruments the loop with
the number of iterations that access the canvas (in-bounds dequeues); it
exists only so the work bound can be stated. -/
def floodLoop (T E : Color) :
    ℕ → Canvas → List Point → Finset Point → ℕ → Option (Canvas × ℕ)
  | 0, _, _, _, _ => none
  | _ + 1, c, [], _, cnt => some (c, cnt)
  | fuel + 1, c, p :: q, v, cnt =>
    if inBounds p then
      match get_at c p with
      | none => none
      | some col =>
        if col = T then
          match set_at c p E with
          | none => none
          | some c' =>
            let qv := pushList (neighbors p) q v
            floodLoop T E fuel c' qv.1 qv.2 (cnt + 1)
        else floodLoop T E fuel c q v (cnt + 1)
    else floodLoop T E fuel c q v cnt

/-- Fuel for `floodLoop`: one more than the number of coordinates that can
ever enter the visited set.  Enqueued coordinates are neighbors of in-bounds
cells (or the seed), so they lie in `[-1, CANVAS_WIDTH] × [-1, CANVAS_HEIGHT]`,
a box of `(CANVAS_WIDTH + 2) * (CANVAS_HEIGHT + 2) = 482804` cells. -/
def fill_fuel : ℕ := 482805

/-- `fill_bucket(pos)` from the source, with the canvas and the selected
color made explicit, instrumented with the canvas-access count of its loop.
Reads `target_color = canvas.get_at(pos)`; if it equals `current_color`
the function returns at once, otherwise it runs the queue-based fill
seeded with `queue = deque([pos])`, `visited = set([pos])`. -/
def fill_bucket_run (c : Canvas) (pos : Point) (current_color : Color) :
    Option (Canvas × ℕ) :=
  match get_at c pos with
  | none => none
  | some target_color =>
    if target_color = current_color then some (c, 0)
    else floodLoop target_color current_color fill_fuel c [pos] {pos} 0

/-- `fill_bucket(pos)`: the resulting canvas (`none` when a surface access
raises or the instrumentation fuel runs out, which the theorems rule out). -/
def fill_bucket (c : Canvas) (pos : Point) (current_color : Color) :
    Option Canvas :=
  (fill_bucket_run c pos current_color).map Prod.fst

/-- 4-connected reachability through the target color `T` on the original
canvas `c0`: the cells `fill_bucket` is specified to recolor.  Every
reachable cell is in bounds and carries color `T` on `c0`. -/
inductive Reach (c0 : Canvas) (T : Color) (s : Point) : Point → Prop where
  | base : inBounds s → c0 s = T → Reach c0 T s s
  | step {p p' : Point} : Reach c0 T s p → p' ∈ neighbors p → inBounds p' →
      c0 p' = T → Reach c0 T s p'

/-- Write one pixel of the model raster (total: the model raster covers all
of `ℤ × ℤ`; surfaces clip writes, and theorems about displayed pixels are
stated for in-bounds coordinates). -/
def setPix (c : Canvas) (p : Point) (col : Color) : Canvas :=
  fun q => if q = p then col else c q

/-- One perpendicular span of pygame's thick-line renderer: a run of `w`
pixels through `pos`, horizontal when `horiz` (steep lines) and vertical
otherwise, starting at offset `-(w / 2) + (1 - w % 2)` (flat ends). -/
def drawSpan (c : Canvas) (col : Color) (horiz : Bool) (pos : Point) (w : ℕ) : Canvas :=
  let a : ℤ := if horiz then pos.1 else pos.2
  let lo : ℤ := a - ((w / 2 : ℕ) : ℤ) + (1 - ((w % 2 : ℕ) : ℤ))
  let hi : ℤ := lo + (w : ℤ) - 1
  fun q =>
    if horiz then
      if q.2 = pos.2 ∧ lo ≤ q.1 ∧ q.1 ≤ hi then col else c q
    else
      if q.1 = pos.1 ∧ lo ≤ q.2 ∧ q.2 ≤ hi then col else c q

/-- The Bresenham walk of pygame's `draw_line_width`: while the current
position differs from the end point, draw a span and advance; the span at
the end point itself is drawn by `draw_line` after the walk.  The walk
reaches the end point in at most `dx + dy` steps, so the fuel passed by
`draw_line` is never exhausted. -/
def lineWalk (col : Color) (horiz : Bool) (w : ℕ) (x2 y2 dx dy sx sy : ℤ) :
    ℕ → ℤ → ℤ → ℤ → Canvas → Canvas
  | 0, _, _, _, c => c
  | fuel + 1, x, y, err, c =>
    if x = x2 ∧ y = y2 then c
    else
      let c' := drawSpan c col horiz (x, y) w
      let e2 := err
      let x' := if e2 > -dx then x + sx else x
      let err1 := if e2 > -dx then err - dy else err
      let y' := if e2 < dy then y + sy else y
      let err2 := if e2 < dy then err1 + dx else err1
      lineWalk col horiz w x2 y2 dx dy sx sy fuel x' y' err2 c'

/-- `draw_line(start, end, size)` from the source: strokes
`pygame.draw.line(canvas, current_color, start, end, size)`.  Note that the
stroke color is the global `current_color`, whichever tool invokes it.
The pygame renderer (`draw_line_width`) walks the Bresenham line and draws
a perpendicular run of `size` pixels at every position; lines of
non-positive width draw nothing. -/
def draw_line (canvas : Canvas) (current_color : Color) (start end_ : Point)
    (size : ℕ) : Canvas :=
  if size < 1 then canvas
  else
    let x1 := start.1
    let y1 := start.2
    let x2 := end_.1
    let y2 := end_.2
    let horiz : Bool := decide ((x1 - x2).natAbs ≤ (y1 - y2).natAbs)
    let dx : ℤ := ((x2 - x1).natAbs : ℤ)
    let dy : ℤ := ((y2 - y1).natAbs : ℤ)
    let sx : ℤ := if x1 < x2 then 1 else -1
    let sy : ℤ := if y1 < y2 then 1 else -1
    let err : ℤ := if dx > dy then dx / 2 else -(dy / 2)
    let fuel := (dx + dy).toNat + 1
    let c1 := lineWalk current_color horiz size x2 y2 dx dy sx sy fuel x1 y1 err canvas
    drawSpan c1 current_color horiz (x2, y2) size

/-- `draw_pencil(pos, size)` from the source:
`pygame.draw.circle(canvas, current_color, pos, size)` with zero width,
a filled disc of radius `size`, modelled as the integer disc
`(dx^2 + dy^2 ≤ size^2)`. -/
def draw_pencil (canvas : Canvas) (current_color : Color) (pos : Point)
    (size : ℕ) : Canvas :=
  fun q =>
    if (q.1 - pos.1) ^ 2 + (q.2 - pos.2) ^ 2 ≤ ((size : ℤ)) ^ 2 then current_color
    else canvas q

/-- `draw_eraser(pos, size)` from the source: the same filled disc, drawn
in the background color `WHITE`. -/
def draw_eraser (canvas : Canvas) (pos : Point) (size : ℕ) : Canvas :=
  fun q =>
    if (q.1 - pos.1) ^ 2 + (q.2 - pos.2) ^ 2 ≤ ((size : ℤ)) ^ 2 then WHITE
    else canvas q

/-- `draw_rectangle(start, end, size)` from the source: the outline, `size`
pixels thick growing inward, of `pygame.Rect(min x, min y, |dx|, |dy|)`
(which spans `[x0, x0 + |dx|) × [y0, y0 + |dy|)`), stroked in
`current_color`. -/
def draw_rectangle (canvas : Canvas) (current_color : Color) (start end_ : Point)
    (size : ℕ) : Canvas :=
  let x0 := min start.1 end_.1
  let y0 := min start.2 end_.2
  let w : ℤ := ((end_.1 - start.1).natAbs : ℤ)
  let h : ℤ := ((end_.2 - start.2).natAbs : ℤ)
  fun q =>
    if (x0 ≤ q.1 ∧ q.1 < x0 + w ∧ y0 ≤ q.2 ∧ q.2 < y0 + h) ∧
        (q.1 < x0 + (size : ℤ) ∨ x0 + w - (size : ℤ) ≤ q.1 ∨
          q.2 < y0 + (size : ℤ) ∨ y0 + h - (size : ℤ) ≤ q.2)
      then current_color else canvas q

/-- The radius computed by `draw_circle`:
`int(math.sqrt((end[0] - start[0]) ** 2 + (end[1] - start[1]) ** 2))`.
Python's `int(...)` truncates the non-negative square root toward zero,
i.e. takes its floor, which is `Nat.sqrt` of the squared distance (for the
coordinate magnitudes at hand the correctly rounded double square root has
the same floor as the exact one). -/
def circle_radius (start end_ : Point) : ℕ :=
  Nat.sqrt ((end_.1 - start.1) ^ 2 + (end_.2 - start.2) ^ 2).toNat

/-- `draw_circle(start, end, size)` from the source:
`pygame.draw.circle(canvas, current_color, start, circle_radius, size)`,
the circle outline of width `size` drawn inward from radius
`circle_radius start end_`, modelled as an integer annulus.  Only the
center and the radius computation are load-bearing for the claims. -/
def draw_circle (canvas : Canvas) (current_color : Color) (start end_ : Point)
    (size : ℕ) : Canvas :=
  let r : ℤ := (circle_radius start end_ : ℤ)
  fun q =>
    let d2 := (q.1 - start.1) ^ 2 + (q.2 - start.2) ^ 2
    if (max (r - (size : ℤ) + 1) 0) ^ 2 ≤ d2 ∧ d2 ≤ r ^ 2 then current_color
    else canvas q

/-- The six tools, a closed enumeration of the source's tool-name strings. -/
inductive Tool where
  | pencil
  | eraser
  | line
  | rectangle
  | circle
  | fill
deriving DecidableEq

/-- The shape tools, `current_tool in ["line", "rectangle", "circle"]`. -/
def isShapeTool (t : Tool) : Prop :=
  t = Tool.line ∨ t = Tool.rectangle ∨ t = Tool.circle

instance (t : Tool) : Decidable (isShapeTool t) := by
  unfold isShapeTool; infer_instance

/-- A left-button pointer event on the canvas
(`MOUSEBUTTONDOWN` / `MOUSEBUTTONUP` with `event.button == 1`).  Toolbar
clicks land at window coordinates outside the canvas rectangle and are not
modelled; the tool/color/size selections are part of the state and are
unchanged by the modelled events. -/
inductive Ev where
  | down
  | up

/-- The script's global drawing state. -/
structure PaintState where
  canvas : Canvas
  drawing : Bool
  last_pos : Option Point
  current_color : Color
  current_tool : Tool
  brush_size : ℕ
  start_pos : Option Point
  temp_surface : Option Canvas

/-- The `MOUSEBUTTONDOWN` branch of the event handler (reached only when
`canvas_mouse_pos` is non-`None`): start a gesture, and for the fill tool
run `fill_bucket` at once, for shape tools store `canvas.copy()` in
`temp_surface`. -/
def handleDown (st : PaintState) (cmp : Point) : PaintState :=
  let st1 := { st with drawing := true, last_pos := some cmp, start_pos := some cmp }
  match st1.current_tool with
  | Tool.fill =>
    { st1 with canvas := (fill_bucket st1.canvas cmp st1.current_color).getD st1.canvas }
  | Tool.line => { st1 with temp_surface := some st1.canvas }
  | Tool.rectangle => { st1 with temp_surface := some st1.canvas }
  | Tool.circle => { st1 with temp_surface := some st1.canvas }
  | _ => st1

/-- The `MOUSEBUTTONUP` branch of the event handler (reached only when
`canvas_mouse_pos` is non-`None`): stop the gesture; for a shape tool with
a live snapshot, blit the snapshot back onto the canvas and rasterize the
final shape from `start_pos` to the release position; finally clear
`last_pos`. -/
def handleUp (st : PaintState) (cmp : Point) : PaintState :=
  let st1 := { st with drawing := false }
  let st2 :=
    match st1.current_tool, st1.start_pos, st1.temp_surface with
    | Tool.line, some sp, some tmp =>
      { st1 with canvas := draw_line tmp st1.current_color sp cmp st1.brush_size,
                 temp_surface := none }
    | Tool.rectangle, some sp, some tmp =>
      { st1 with canvas := draw_rectangle tmp st1.current_color sp cmp st1.brush_size,
                 temp_surface := none }
    | Tool.circle, some sp, some tmp =>
      { st1 with canvas := draw_circle tmp st1.current_color sp cmp st1.brush_size,
                 temp_surface := none }
    | _, _, _ => st1
  { st2 with last_pos := none }

/-- Dispatch one event: the whole canvas-interaction block is guarded by
`if canvas_mouse_pos:`, so events arriving while the pointer is outside
the canvas leave the drawing state untouched. -/
def processEvent (st : PaintState) (cmp : Option Point) (e : Ev) : PaintState :=
  match cmp with
  | none => st
  | some m =>
    match e with
    | Ev.down => handleDown st m
    | Ev.up => handleUp st m

/-- The continuous-drawing block run every frame after the event loop:
while `drawing` and the pointer is in bounds, the pencil and eraser stroke
from `last_pos` to the pointer.  Note both tools stroke the segment with
`draw_line`, hence in `current_color`; `draw_eraser` (white) is reached
only when `last_pos` is `None`. -/
def continuousDraw (st : PaintState) (cmp : Option Point) : PaintState :=
  match cmp with
  | none => st
  | some m =>
    if st.drawing then
      match st.current_tool with
      | Tool.pencil =>
        match st.last_pos with
        | some lp =>
          { st with canvas := draw_line st.canvas st.current_color lp m st.brush_size,
                    last_pos := some m }
        | none =>
          { st with canvas := draw_pencil st.canvas st.current_color m st.brush_size,
                    last_pos := some m }
      | Tool.eraser =>
        match st.last_pos with
        | some lp =>
          { st with canvas := draw_line st.canvas st.current_color lp m st.brush_size,
                    last_pos := some m }
        | none =>
          { st with canvas := draw_eraser st.canvas m st.brush_size,
                    last_pos := some m }
      | _ => st
    else st

/-- One iteration of the main loop: the polled mouse position and the
left-button events delivered this frame. -/
structure Frame where
  mouse : Point
  events : List Ev

/-- `canvas_mouse_pos`: the polled mouse position when it lies inside the
canvas rectangle, `None` otherwise. -/
def canvasMousePos (m : Point) : Option Point :=
  if inBounds m then some m else none

/-- One iteration of the `while True:` main loop, up to rendering:
compute `canvas_mouse_pos` from the polled position, process the frame's
events, then run the continuous-drawing block. -/
def frameStep (st : PaintState) (f : Frame) : PaintState :=
  continuousDraw
    (f.events.foldl (fun s e => processEvent s (canvasMousePos f.mouse) e) st)
    (canvasMousePos f.mouse)

/-- Run a sequence of main-loop iterations. -/
def runFrames (st : PaintState) (fs : List Frame) : PaintState :=
  fs.foldl frameStep st

/-- The final shape rasterized by the release handler, per tool. -/
def shapeDraw (t : Tool) (c : Canvas) (col : Color) (sp m : Point) (size : ℕ) : Canvas :=
  match t with
  | Tool.line => draw_line c col sp m size
  | Tool.rectangle => draw_rectangle c col sp m size
  | Tool.circle => draw_circle c col sp m size
  | _ => c

/-- The canvas-area content of the rendered frame (source lines 298-376
restricted to `x < CANVAS_WIDTH`, `y < CANVAS_HEIGHT`; all toolbar drawing
happens at `x ≥ CANVAS_WIDTH`): the screen shows the canvas, except that
while `drawing` with a live `temp_surface` and `start_pos` and an in-bounds
pointer, the snapshot is blitted over it and the transient shape preview is
drawn on the screen — the canvas itself is not written. -/
def displayCanvasArea (st : PaintState) (cmp : Option Point) : Canvas :=
  match cmp, st.temp_surface, st.start_pos with
  | some m, some tmp, some sp =>
    if st.drawing then
      match st.current_tool with
      | Tool.line => draw_line tmp st.current_color sp m st.brush_size
      | Tool.rectangle => draw_rectangle tmp st.current_color sp m st.brush_size
      | Tool.circle => draw_circle tmp st.current_color sp m st.brush_size
      | _ => tmp
    else st.canvas
  | _, _, _ => st.canvas

/-- Modelled from the spec: the dot that "pressing and releasing pencil at
point P with no intervening move" is specified to draw — a filled disc of
the configured brush radius centered at P (spec §4.3 `strokeDot`, §8
"Continuous-stroke idempotence of a single click"). -/
def inSpecDot (center : Point) (radius : ℕ) (q : Point) : Prop :=
  (q.1 - center.1) ^ 2 + (q.2 - center.2) ^ 2 ≤ ((radius : ℤ)) ^ 2

instance (center : Point) (radius : ℕ) (q : Point) :
    Decidable (inSpecDot center radius q) := by
  unfold inSpecDot; infer_instance

/-- Modelled from the spec: "`radius = euclideanDistance(center, edgePoint)`
(rounded to the nearest integer pixel radius)" (spec §4.3
`strokeCircleOutline`).  The nearest integer to `√n` is
`(Nat.sqrt (4 * n) + 1) / 2`: indeed `⌊√n + 1/2⌋ = ⌊(⌊√(4n)⌋ + 1) / 2⌋`. -/
def specRoundRadius (n : ℕ) : ℕ :=
  (Nat.sqrt (4 * n) + 1) / 2

/-- All coordinates `fill_bucket` can ever enqueue: the seed and neighbors
of in-bounds cells, i.e. `[-1, CANVAS_WIDTH] × [-1, CANVAS_HEIGHT]`. -/
def extBox : Finset Point :=
  Finset.Icc (-1 : ℤ) CANVAS_WIDTH ×ˢ Finset.Icc (-1 : ℤ) CANVAS_HEIGHT

/-- The in-bounds coordinates as a finite set
(`[0, CANVAS_WIDTH) × [0, CANVAS_HEIGHT)`). -/
def boundsBox : Finset Point :=
  Finset.Icc (0 : ℤ) (CANVAS_WIDTH - 1) ×ˢ Finset.Icc (0 : ℤ) (CANVAS_HEIGHT - 1)

/-- Invariant of `floodLoop`, relating a loop state `(c, q, v, cnt)` to
the original canvas `c0`, the target color `T`, the fill color `E` and the
seed `s`.  It packages soundness (recolored cells are reachable),
completeness (the queue covers the frontier of the recolored region),
the bookkeeping facts behind termination (everything enqueued is visited
exactly once and stays inside `extBox`), and the canvas-access count. -/
structure FillInv (c0 : Canvas) (T E : Color) (s : Point)
    (c : Canvas) (q : List Point) (v : Finset Point) (cnt : ℕ) : Prop where
  seed_vis : s ∈ v
  diff : ∀ p, c p = c0 p ∨ (c p = E ∧ c0 p = T ∧ Reach c0 T s p)
  queue_reach : ∀ p ∈ q, inBounds p → c0 p = T → Reach c0 T s p
  vis_box : ∀ p ∈ v, p ∈ extBox
  queue_vis : ∀ p ∈ q, p ∈ v
  queue_nodup : q.Nodup
  pending : ∀ p ∈ v, inBounds p → c0 p = T → (p ∈ q ∨ c p = E)
  frontier : ∀ p' p, c p' = E → c0 p' = T → p ∈ neighbors p' → inBounds p →
    c0 p = T → (c p = E ∨ p ∈ q)
  visit_count : cnt + (q.filter (fun p => decide (inBounds p))).length ≤
    (v.filter (fun p => inBounds p)).card

/-! ## Theorems -/

theorem canvasMousePos_pos {m : Point} (h : inBounds m) : canvasMousePos m = some m :=
  if_pos h

theorem canvasMousePos_neg {m : Point} (h : ¬ inBounds m) : canvasMousePos m = none :=
  if_neg h

theorem continuousDraw_shape (st : PaintState) (cmp : Option Point)
    (h : isShapeTool st.current_tool) : continuousDraw st cmp = st := by
  cases cmp with
  | none => rfl
  | some m =>
    unfold continuousDraw
    rcases h with h | h | h <;> rw [h] <;> by_cases hd : st.drawing <;> simp [hd]

theorem frameStep_no_events_shape (st : PaintState) (m : Point)
    (h : isShapeTool st.current_tool) : frameStep st ⟨m, []⟩ = st := by
  unfold frameStep
  exact continuousDraw_shape st _ h

theorem runFrames_moves_shape (st : PaintState) (ms : List Point)
    (h : isShapeTool st.current_tool) :
    runFrames st (ms.map (fun m => ⟨m, []⟩)) = st := by
  induction ms with
  | nil => rfl
  | cons m ms ih =>
    show runFrames (frameStep st ⟨m, []⟩) (ms.map (fun m => ⟨m, []⟩)) = st
    rw [frameStep_no_events_shape st m h]
    exact ih

theorem runFrames_nil (st : PaintState) : runFrames st [] = st := rfl

theorem runFrames_cons (st : PaintState) (f : Frame) (fs : List Frame) :
    runFrames st (f :: fs) = runFrames (frameStep st f) fs := rfl

theorem runFrames_append (st : PaintState) (fs gs : List Frame) :
    runFrames st (fs ++ gs) = runFrames (runFrames st fs) gs :=
  List.foldl_append _ _ _ _

theorem continuousDraw_not_drawing (st : PaintState) (cmp : Option Point)
    (h : st.drawing = false) : continuousDraw st cmp = st := by
  cases cmp with
  | none => rfl
  | some m => unfold continuousDraw; simp [h]

theorem handleDown_shape (st : PaintState) (m : Point)
    (h : isShapeTool st.current_tool) :
    handleDown st m =
      { st with drawing := true, last_pos := some m, start_pos := some m,
                temp_surface := some st.canvas } := by
  rcases h with h | h | h <;> simp [handleDown, h]

theorem handleUp_shape (st : PaintState) (m sp : Point) (tmp : Canvas)
    (h : isShapeTool st.current_tool) (hsp : st.start_pos = some sp)
    (htmp : st.temp_surface = some tmp) :
    handleUp st m =
      { st with drawing := false, last_pos := none, temp_surface := none,
                canvas := shapeDraw st.current_tool tmp st.current_color sp m
                  st.brush_size } := by
  rcases h with h | h | h <;> simp [handleUp, h, hsp, htmp, shapeDraw]

/-- Claim C3: for any shape tool, a pointer-down at `p0`, any number of
preview frames, and a release at `pr` leave the canvas equal to the
snapshot taken at pointer-down with only the final shape from `p0` to `pr`
drawn on top: intermediate previews leave no residue (they never touch the
canvas, and the release handler blits the snapshot back before the final
rasterization). -/
theorem C3_preview_reversibility (t : Tool) (ht : isShapeTool t)
    (c0 : Canvas) (col : Color) (size : ℕ) (p0 pr : Point) (moves : List Point)
    (h0 : inBounds p0) (hr : inBounds pr) :
    (runFrames
      { canvas := c0, drawing := false, last_pos := none, current_color := col,
        current_tool := t, brush_size := size, start_pos := none, temp_surface := none }
      (⟨p0, [Ev.down]⟩ :: (moves.map (fun m => ⟨m, []⟩) ++ [⟨pr, [Ev.up]⟩]))).canvas
      = shapeDraw t c0 col p0 pr size := by
  rw [runFrames_cons]
  have hdown : frameStep
      { canvas := c0, drawing := false, last_pos := none, current_color := col,
        current_tool := t, brush_size := size, start_pos := none,
        temp_surface := none }
      ⟨p0, [Ev.down]⟩ =
      { canvas := c0, drawing := true, last_pos := some p0, current_color := col,
        current_tool := t, brush_size := size, start_pos := some p0,
        temp_surface := some c0 } := by
    unfold frameStep
    rw [canvasMousePos_pos h0]
    rcases ht with h | h | h <;> subst h <;> rfl
  rw [hdown, runFrames_append, runFrames_moves_shape _ moves ht, runFrames_cons,
    runFrames_nil]
  unfold frameStep
  rw [canvasMousePos_pos hr]
  rcases ht with h | h | h <;> subst h <;> rfl

/-- Witness for C3 at a concrete instance: line tool, no preview moves. -/
theorem C3_preview_reversibility_witness :
    (runFrames
      { canvas := fun _ => WHITE, drawing := false, last_pos := none,
        current_color := BLACK, current_tool := Tool.line, brush_size := 1,
        start_pos := none, temp_surface := none }
      (⟨(1, 1), [Ev.down]⟩ :: (([] : List Point).map (fun m => ⟨m, []⟩) ++
        [⟨(2, 1), [Ev.up]⟩]))).canvas
      = shapeDraw Tool.line (fun _ => WHITE) BLACK (1, 1) (2, 1) 1 :=
  C3_preview_reversibility Tool.line (Or.inl rfl) (fun _ => WHITE) BLACK 1 (1, 1)
    (2, 1) [] (by decide) (by decide)

/-- Claim C2 (code bug): while `Drawing` with the eraser and `last_pos` set
(which every pointer-down establishes), the move segment is stroked by
`draw_line`, i.e. in the globally selected `current_color` — not in the
background white that `draw_eraser`'s own docstring promises.  With black
selected, an eraser drag from (2,2) to (3,3) paints (3,3) black. -/
theorem C2_eraser_drag_uses_selected_color_bug :
    (frameStep
      { canvas := fun _ => WHITE, drawing := true, last_pos := some (2, 2),
        current_color := BLACK, current_tool := Tool.eraser, brush_size := 5,
        start_pos := some (2, 2), temp_surface := none }
      ⟨(3, 3), []⟩).canvas (3, 3) = BLACK ∧ BLACK ≠ WHITE :=
  ⟨by decide, by decide⟩

/-- Claim C4: flood fill with a replacement color equal to the color read
at the (in-bounds) seed returns the canvas unchanged — a defined no-op,
not a failure. -/
theorem C4_same_color_fill_noop (c : Canvas) (pos : Point) (col : Color)
    (h : inBounds pos) (hc : c pos = col) :
    fill_bucket c pos col = some c := by
  simp [fill_bucket, fill_bucket_run, get_at, h, hc]

/-- Witness for C4: filling all-white with white at the origin. -/
theorem C4_same_color_fill_noop_witness :
    fill_bucket (fun _ => WHITE) (0, 0) WHITE = some (fun _ => WHITE) :=
  C4_same_color_fill_noop (fun _ => WHITE) (0, 0) WHITE (by decide) rfl

/-- Claim C5 (code bug): a pencil press-and-release at (100,100) with brush
radius 5 is specified to draw the filled disc of radius 5 centered there,
but `last_pos` is set on pointer-down, so the `draw_pencil` dot branch is
unreachable and the frame strokes `draw_line((100,100), (100,100), 5)` — a
degenerate 5-pixel bar.  The disc point (105,100) stays white. -/
theorem C5_click_misses_spec_dot_bug :
    inSpecDot (100, 100) 5 (105, 100) ∧
    (runFrames
      { canvas := fun _ => WHITE, drawing := false, last_pos := none,
        current_color := BLACK, current_tool := Tool.pencil, brush_size := 5,
        start_pos := none, temp_surface := none }
      [⟨(100, 100), [Ev.down]⟩, ⟨(100, 100), [Ev.up]⟩]).canvas (105, 100) = WHITE ∧
    WHITE ≠ BLACK :=
  ⟨by decide, by decide, by decide⟩

/-- Counterexample to claim C7 as stated: on a pointer-move while
previewing a line from (0,0) to (2,0), the canvas pixel (1,0) is NOT
recolored — the canvas still equals the snapshot, while
"snapshot plus current outline" would have (1,0) black.  The preview is
composed on the display surface, not written into the canvas buffer. -/
theorem C7_canvas_untouched_on_preview_move_cex :
    (frameStep
      { canvas := fun _ => WHITE, drawing := true, last_pos := some (0, 0),
        current_color := BLACK, current_tool := Tool.line, brush_size := 1,
        start_pos := some (0, 0), temp_surface := some (fun _ => WHITE) }
      ⟨(2, 0), []⟩).canvas (1, 0) = WHITE ∧
    draw_line (fun _ => WHITE) BLACK (0, 0) (2, 0) 1 (1, 0) = BLACK ∧
    WHITE ≠ BLACK :=
  ⟨by decide, by decide, by decide⟩

/-- Claim C7 (amended): a pointer-move while previewing leaves the engine
state — in particular the canvas buffer — completely unchanged; the
preview is produced at render time by blitting the snapshot onto the
display and rasterizing the current outline on the display surface, so the
displayed canvas area equals snapshot-plus-outline while the canvas itself
still equals its pointer-down content. -/
theorem C7_preview_composed_on_display (st : PaintState) (m : Point)
    (tmp : Canvas) (sp : Point) (hshape : isShapeTool st.current_tool)
    (hdraw : st.drawing = true) (htmp : st.temp_surface = some tmp)
    (hsp : st.start_pos = some sp) (hm : inBounds m) :
    frameStep st ⟨m, []⟩ = st ∧
    displayCanvasArea st (canvasMousePos m) =
      shapeDraw st.current_tool tmp st.current_color sp m st.brush_size := by
  refine ⟨frameStep_no_events_shape st m hshape, ?_⟩
  rw [canvasMousePos_pos hm]
  rcases hshape with h | h | h <;>
    simp [displayCanvasArea, htmp, hsp, hdraw, h, shapeDraw]

/-- Witness for C7 (amended) at a concrete previewing state. -/
theorem C7_preview_composed_on_display_witness :
    frameStep
      { canvas := fun _ => WHITE, drawing := true, last_pos := some (0, 0),
        current_color := BLACK, current_tool := Tool.line, brush_size := 1,
        start_pos := some (0, 0), temp_surface := some (fun _ => WHITE) }
      ⟨(2, 0), []⟩ =
      { canvas := fun _ => WHITE, drawing := true, last_pos := some (0, 0),
        current_color := BLACK, current_tool := Tool.line, brush_size := 1,
        start_pos := some (0, 0), temp_surface := some (fun _ => WHITE) } ∧
    displayCanvasArea
      { canvas := fun _ => WHITE, drawing := true, last_pos := some (0, 0),
        current_color := BLACK, current_tool := Tool.line, brush_size := 1,
        start_pos := some (0, 0), temp_surface := some (fun _ => WHITE) }
      (canvasMousePos (2, 0)) =
      shapeDraw Tool.line (fun _ => WHITE) BLACK (0, 0) (2, 0) 1 :=
  C7_preview_composed_on_display _ (2, 0) (fun _ => WHITE) (0, 0) (Or.inl rfl)
    rfl rfl rfl (by decide)

/-- Counterexample to claim C8 as stated: after a line-tool press at (1,1),
a release while the pointer sits at (900,50) — outside the canvas — does
NOT finalize the gesture: no shape is committed (pixel (1,1) stays white),
`drawing` remains set and the snapshot is still held. -/
theorem C8_stale_gesture_after_outside_release_cex :
    ((runFrames
      { canvas := fun _ => WHITE, drawing := false, last_pos := none,
        current_color := BLACK, current_tool := Tool.line, brush_size := 1,
        start_pos := none, temp_surface := none }
      [⟨(1, 1), [Ev.down]⟩, ⟨(900, 50), [Ev.up]⟩]).temp_surface).isSome = true ∧
    (runFrames
      { canvas := fun _ => WHITE, drawing := false, last_pos := none,
        current_color := BLACK, current_tool := Tool.line, brush_size := 1,
        start_pos := none, temp_surface := none }
      [⟨(1, 1), [Ev.down]⟩, ⟨(900, 50), [Ev.up]⟩]).drawing = true ∧
    (runFrames
      { canvas := fun _ => WHITE, drawing := false, last_pos := none,
        current_color := BLACK, current_tool := Tool.line, brush_size := 1,
        start_pos := none, temp_surface := none }
      [⟨(1, 1), [Ev.down]⟩, ⟨(900, 50), [Ev.up]⟩]).canvas (1, 1) = WHITE :=
  ⟨by decide, by decide, by decide⟩

/-- Claim C8 (amended): the whole canvas-interaction block is guarded by
`if canvas_mouse_pos:`, so a button release delivered while the pointer is
outside canvas bounds is ignored entirely — the gesture is not finalized
and every piece of state (canvas, flags, snapshot) is retained unchanged
until some later in-bounds release. -/
theorem C8_release_outside_is_ignored (st : PaintState) (m : Point)
    (h : ¬ inBounds m) : frameStep st ⟨m, [Ev.up]⟩ = st := by
  unfold frameStep
  rw [canvasMousePos_neg h]
  rfl

/-- Witness for C8 (amended) at a concrete state and pointer position. -/
theorem C8_release_outside_is_ignored_witness :
    frameStep
      { canvas := fun _ => WHITE, drawing := true, last_pos := some (1, 1),
        current_color := BLACK, current_tool := Tool.line, brush_size := 1,
        start_pos := some (1, 1), temp_surface := some (fun _ => WHITE) }
      ⟨(900, 50), [Ev.up]⟩ =
      { canvas := fun _ => WHITE, drawing := true, last_pos := some (1, 1),
        current_color := BLACK, current_tool := Tool.line, brush_size := 1,
        start_pos := some (1, 1), temp_surface := some (fun _ => WHITE) } :=
  C8_release_outside_is_ignored _ (900, 50) (by decide)

/-- Counterexample to claim C9 as stated: with center (0,0) and edge point
(2,3) the squared distance is 13; the code's radius is `int(sqrt(13)) = 3`,
while the nearest integer to `sqrt(13) = 3.605...` is 4. -/
theorem C9_radius_not_rounded_cex :
    circle_radius (0, 0) (2, 3) = 3 ∧
    specRoundRadius (((2 : ℤ) - 0) ^ 2 + ((3 : ℤ) - 0) ^ 2).toNat = 4 ∧
    (3 : ℕ) ≠ 4 := by
  have h13 : Nat.sqrt 13 = 3 := (Nat.eq_sqrt.2 (by norm_num)).symm
  have h52 : Nat.sqrt 52 = 7 := (Nat.eq_sqrt.2 (by norm_num)).symm
  have ht : Int.toNat 13 = 13 := rfl
  refine ⟨?_, ?_, by norm_num⟩
  · unfold circle_radius
    norm_num [ht, h13]
  · unfold specRoundRadius
    norm_num [ht, h52]

/-- Claim C9 (amended): `draw_circle`'s radius is the Euclidean distance
from center to edge point truncated (floored) to an integer — Python's
`int(math.sqrt(d2))` — not rounded to the nearest integer: its square is
at most the squared distance, which is below the next square. -/
theorem C9_radius_is_floored_distance (s e : Point) :
    circle_radius s e ^ 2 ≤ ((e.1 - s.1) ^ 2 + (e.2 - s.2) ^ 2).toNat ∧
    ((e.1 - s.1) ^ 2 + (e.2 - s.2) ^ 2).toNat < (circle_radius s e + 1) ^ 2 := by
  unfold circle_radius
  exact ⟨Nat.sqrt_le' _, Nat.lt_succ_sqrt' _⟩

theorem neighbors_ne {p n : Point} (h : n ∈ neighbors p) : n ≠ p := by
  rcases p with ⟨x, y⟩
  simp only [neighbors, List.mem_cons, List.not_mem_nil, or_false] at h
  rcases h with h | h | h | h <;> subst h <;> intro hcon <;>
    simp only [Prod.mk.injEq] at hcon <;> omega

theorem mem_extBox_iff {p : Point} :
    p ∈ extBox ↔ -1 ≤ p.1 ∧ p.1 ≤ CANVAS_WIDTH ∧ -1 ≤ p.2 ∧ p.2 ≤ CANVAS_HEIGHT := by
  simp [extBox, Finset.mem_product, Finset.mem_Icc, and_assoc]

theorem inBounds_mem_extBox {p : Point} (h : inBounds p) : p ∈ extBox := by
  rcases h with ⟨h1, h2, h3, h4⟩
  rw [mem_extBox_iff]
  refine ⟨by omega, by omega, by omega, by omega⟩

theorem neighbors_mem_extBox {p n : Point} (hp : inBounds p)
    (h : n ∈ neighbors p) : n ∈ extBox := by
  rcases hp with ⟨h1, h2, h3, h4⟩
  simp only [neighbors, List.mem_cons, List.not_mem_nil, or_false] at h
  rw [mem_extBox_iff]
  rcases h with h | h | h | h <;> subst h <;> simp only [Prod.fst, Prod.snd] <;> omega

theorem extBox_card : extBox.card = 482804 := by
  rw [extBox, Finset.card_product, Int.card_Icc, Int.card_Icc]
  rw [show CANVAS_WIDTH + 1 - -1 = 802 from rfl, show CANVAS_HEIGHT + 1 - -1 = 602 from rfl]
  rfl

theorem mem_boundsBox_iff {p : Point} : p ∈ boundsBox ↔ inBounds p := by
  rcases p with ⟨x, y⟩
  simp only [boundsBox, Finset.mem_product, Finset.mem_Icc, inBounds]
  omega

theorem boundsBox_card : boundsBox.card = 480000 := by
  rw [boundsBox, Finset.card_product, Int.card_Icc, Int.card_Icc]
  rw [show CANVAS_WIDTH - 1 + 1 - 0 = 800 from rfl, show CANVAS_HEIGHT - 1 + 1 - 0 = 600 from rfl]
  rfl

theorem reach_inBounds {c0 : Canvas} {T : Color} {s p : Point}
    (h : Reach c0 T s p) : inBounds p := by
  induction h with
  | base hs _ => exact hs
  | step _ _ hb _ _ => exact hb

theorem reach_color {c0 : Canvas} {T : Color} {s p : Point}
    (h : Reach c0 T s p) : c0 p = T := by
  induction h with
  | base _ hc => exact hc
  | step _ _ _ hc _ => exact hc

theorem pushList_spec (ns : List Point) :
    ∀ (q : List Point) (v : Finset Point),
    ∃ fresh : List Point,
      (pushList ns q v).1 = q ++ fresh ∧
      (pushList ns q v).2 = v ∪ fresh.toFinset ∧
      fresh.Nodup ∧
      (∀ x ∈ fresh, x ∉ v) ∧
      (∀ x ∈ fresh, x ∈ ns) ∧
      (∀ x ∈ ns, x ∉ v → x ∈ fresh) := by
  induction ns with
  | nil =>
    intro q v
    exact ⟨[], by simp [pushList], by simp [pushList], List.nodup_nil,
      by simp, by simp, by simp⟩
  | cons n ns ih =>
    intro q v
    by_cases hn : n ∈ v
    · obtain ⟨fresh, h1, h2, h3, h4, h5, h6⟩ := ih q v
      refine ⟨fresh, ?_, ?_, h3, h4, ?_, ?_⟩
      · rw [pushList, if_pos hn]; exact h1
      · rw [pushList, if_pos hn]; exact h2
      · exact fun x hx => List.mem_cons_of_mem n (h5 x hx)
      · intro x hx hxv
        rcases List.mem_cons.1 hx with rfl | hx
        · exact absurd hn hxv
        · exact h6 x hx hxv
    · obtain ⟨fresh, h1, h2, h3, h4, h5, h6⟩ := ih (q ++ [n]) (insert n v)
      refine ⟨n :: fresh, ?_, ?_, ?_, ?_, ?_, ?_⟩
      · rw [pushList, if_neg hn, h1, List.append_assoc]
        rfl
      · rw [pushList, if_neg hn, h2, List.toFinset_cons, Finset.insert_union,
          Finset.union_insert]
      · refine List.nodup_cons.2 ⟨fun hmem => ?_, h3⟩
        exact h4 n hmem (Finset.mem_insert_self n v)
      · intro x hx
        rcases List.mem_cons.1 hx with rfl | hx
        · exact hn
        · exact fun hxv => h4 x hx (Finset.mem_insert_of_mem hxv)
      · intro x hx
        rcases List.mem_cons.1 hx with rfl | hx
        · exact List.mem_cons_self x ns
        · exact List.mem_cons_of_mem n (h5 x hx)
      · intro x hx hxv
        rcases List.mem_cons.1 hx with rfl | hx
        · exact List.mem_cons_self x fresh
        · by_cases hxn : x = n
          · subst hxn; exact List.mem_cons_self x fresh
          · exact List.mem_cons_of_mem n
              (h6 x hx (fun hmem => hxv (Finset.mem_of_mem_insert_of_ne hmem hxn)))

theorem floodLoop_nil (T E : Color) (fuel : ℕ) (c : Canvas) (v : Finset Point)
    (cnt : ℕ) : floodLoop T E (fuel + 1) c [] v cnt = some (c, cnt) := rfl

theorem floodLoop_cons_oob (T E : Color) (fuel : ℕ) (c : Canvas) (p : Point)
    (q : List Point) (v : Finset Point) (cnt : ℕ) (h : ¬ inBounds p) :
    floodLoop T E (fuel + 1) c (p :: q) v cnt = floodLoop T E fuel c q v cnt := by
  simp [floodLoop, h]

theorem floodLoop_cons_skip (T E : Color) (fuel : ℕ) (c : Canvas) (p : Point)
    (q : List Point) (v : Finset Point) (cnt : ℕ) (h : inBounds p)
    (hc : c p ≠ T) :
    floodLoop T E (fuel + 1) c (p :: q) v cnt =
      floodLoop T E fuel c q v (cnt + 1) := by
  simp [floodLoop, h, get_at, hc]

theorem floodLoop_cons_hit (T E : Color) (fuel : ℕ) (c : Canvas) (p : Point)
    (q : List Point) (v : Finset Point) (cnt : ℕ) (h : inBounds p)
    (hc : c p = T) :
    floodLoop T E (fuel + 1) c (p :: q) v cnt =
      floodLoop T E fuel (fun x => if x = p then E else c x)
        (pushList (neighbors p) q v).1 (pushList (neighbors p) q v).2 (cnt + 1) := by
  simp [floodLoop, h, get_at, set_at, hc]

theorem FillInv.card_le {c0 : Canvas} {T E : Color} {s : Point} {c : Canvas}
    {q : List Point} {v : Finset Point} {cnt : ℕ}
    (hinv : FillInv c0 T E s c q v cnt) : v.card ≤ 482804 := by
  calc v.card ≤ extBox.card :=
        Finset.card_le_card (fun x hx => hinv.vis_box x hx)
    _ = 482804 := extBox_card

theorem FillInv.oob_step {c0 : Canvas} {T E : Color} {s : Point} {c : Canvas}
    {p : Point} {q : List Point} {v : Finset Point} {cnt : ℕ}
    (hinv : FillInv c0 T E s c (p :: q) v cnt) (hb : ¬ inBounds p) :
    FillInv c0 T E s c q v cnt where
  seed_vis := hinv.seed_vis
  diff := hinv.diff
  queue_reach := fun x hx => hinv.queue_reach x (List.mem_cons_of_mem p hx)
  vis_box := hinv.vis_box
  queue_vis := fun x hx => hinv.queue_vis x (List.mem_cons_of_mem p hx)
  queue_nodup := (List.nodup_cons.1 hinv.queue_nodup).2
  pending := by
    intro x hx hbx hcx
    rcases hinv.pending x hx hbx hcx with hmem | hE
    · rcases List.mem_cons.1 hmem with rfl | hmem
      · exact absurd hbx hb
      · exact Or.inl hmem
    · exact Or.inr hE
  frontier := by
    intro a b haE ha0 hadj hbB hb0
    rcases hinv.frontier a b haE ha0 hadj hbB hb0 with hE | hmem
    · exact Or.inl hE
    · rcases List.mem_cons.1 hmem with rfl | hmem
      · exact absurd hbB hb
      · exact Or.inr hmem
  visit_count := by
    have hold := hinv.visit_count
    rwa [List.filter_cons_of_neg (by simpa using hb)] at hold

theorem FillInv.skip_step {c0 : Canvas} {T E : Color} {s : Point} {c : Canvas}
    {p : Point} {q : List Point} {v : Finset Point} {cnt : ℕ}
    (hinv : FillInv c0 T E s c (p :: q) v cnt) (hb : inBounds p)
    (hcp : c p ≠ T) : FillInv c0 T E s c q v (cnt + 1) where
  seed_vis := hinv.seed_vis
  diff := hinv.diff
  queue_reach := fun x hx => hinv.queue_reach x (List.mem_cons_of_mem p hx)
  vis_box := hinv.vis_box
  queue_vis := fun x hx => hinv.queue_vis x (List.mem_cons_of_mem p hx)
  queue_nodup := (List.nodup_cons.1 hinv.queue_nodup).2
  pending := by
    intro x hx hbx hcx
    rcases hinv.pending x hx hbx hcx with hmem | hE
    · rcases List.mem_cons.1 hmem with rfl | hmem
      · rcases hinv.diff x with hd | ⟨hE, _, _⟩
        · exact absurd (hd.trans hcx) hcp
        · exact Or.inr hE
      · exact Or.inl hmem
    · exact Or.inr hE
  frontier := by
    intro a b haE ha0 hadj hbB hb0
    rcases hinv.frontier a b haE ha0 hadj hbB hb0 with hE | hmem
    · exact Or.inl hE
    · rcases List.mem_cons.1 hmem with rfl | hmem
      · rcases hinv.diff b with hd | ⟨hE2, _, _⟩
        · exact absurd (hd.trans hb0) hcp
        · exact Or.inl hE2
      · exact Or.inr hmem
  visit_count := by
    have hold := hinv.visit_count
    rw [List.filter_cons_of_pos (by simpa using hb), List.length_cons] at hold
    omega

theorem FillInv.hit_step {c0 : Canvas} {T E : Color} {s : Point} {c : Canvas}
    {p : Point} {q : List Point} {v : Finset Point} {cnt : ℕ}
    (hinv : FillInv c0 T E s c (p :: q) v cnt) (hTE : T ≠ E)
    (hb : inBounds p) (hcp : c p = T)
    (fresh : List Point) (hnd : fresh.Nodup) (hdisj : ∀ x ∈ fresh, x ∉ v)
    (hsub : ∀ x ∈ fresh, x ∈ neighbors p)
    (hcov : ∀ x ∈ neighbors p, x ∉ v → x ∈ fresh) :
    FillInv c0 T E s (fun x => if x = p then E else c x) (q ++ fresh)
      (v ∪ fresh.toFinset) (cnt + 1) := by
  have hc0p : c0 p = T := by
    rcases hinv.diff p with hd | ⟨hE, _, _⟩
    · rw [← hd]; exact hcp
    · exact absurd (hcp.symm.trans hE) hTE
  have hreach : Reach c0 T s p := hinv.queue_reach p (List.mem_cons_self p q) hb hc0p
  have hqnd : q.Nodup := (List.nodup_cons.1 hinv.queue_nodup).2
  refine
    { seed_vis := Finset.mem_union_left _ hinv.seed_vis
      diff := ?_
      queue_reach := ?_
      vis_box := ?_
      queue_vis := ?_
      queue_nodup := ?_
      pending := ?_
      frontier := ?_
      visit_count := ?_ }
  · intro x
    by_cases hx : x = p
    · subst hx
      exact Or.inr ⟨if_pos rfl, hc0p, hreach⟩
    · show (if x = p then E else c x) = c0 x ∨ _
      rw [if_neg hx]
      exact hinv.diff x
  · intro x hx hbx hcx
    rcases List.mem_append.1 hx with hx | hx
    · exact hinv.queue_reach x (List.mem_cons_of_mem p hx) hbx hcx
    · exact Reach.step hreach (hsub x hx) hbx hcx
  · intro x hx
    rcases Finset.mem_union.1 hx with hx | hx
    · exact hinv.vis_box x hx
    · exact neighbors_mem_extBox hb (hsub x (List.mem_toFinset.1 hx))
  · intro x hx
    rcases List.mem_append.1 hx with hx | hx
    · exact Finset.mem_union_left _ (hinv.queue_vis x (List.mem_cons_of_mem p hx))
    · exact Finset.mem_union_right _ (List.mem_toFinset.2 hx)
  · refine List.Nodup.append hqnd hnd ?_
    intro x hxq hxf
    exact hdisj x hxf (hinv.queue_vis x (List.mem_cons_of_mem p hxq))
  · intro x hx hbx hcx
    rcases Finset.mem_union.1 hx with hx | hx
    · rcases hinv.pending x hx hbx hcx with hmem | hE
      · rcases List.mem_cons.1 hmem with rfl | hmem
        · right
          show (if x = x then E else c x) = E
          rw [if_pos rfl]
        · exact Or.inl (List.mem_append_left fresh hmem)
      · right
        by_cases hxp : x = p
        · subst hxp
          show (if x = x then E else c x) = E
          rw [if_pos rfl]
        · show (if x = p then E else c x) = E
          rw [if_neg hxp]
          exact hE
    · exact Or.inl (List.mem_append_right q (List.mem_toFinset.1 hx))
  · intro a b haE ha0 hadj hbB hb0
    by_cases hbp : b = p
    · subst hbp
      left
      show (if b = b then E else c b) = E
      rw [if_pos rfl]
    · by_cases hap : a = p
      · subst hap
        by_cases hbv : b ∈ v
        · rcases hinv.pending b hbv hbB hb0 with hmem | hE
          · rcases List.mem_cons.1 hmem with hmem1 | hmem2
            · exact absurd hmem1 hbp
            · exact Or.inr (List.mem_append_left fresh hmem2)
          · left
            show (if b = a then E else c b) = E
            rw [if_neg hbp]
            exact hE
        · exact Or.inr (List.mem_append_right q (hcov b hadj hbv))
      · have haE' : c a = E := by
          have h1 : (if a = p then E else c a) = E := haE
          rwa [if_neg hap] at h1
        rcases hinv.frontier a b haE' ha0 hadj hbB hb0 with hE | hmem
        · left
          show (if b = p then E else c b) = E
          rw [if_neg hbp]
          exact hE
        · rcases List.mem_cons.1 hmem with hmem1 | hmem2
          · exact absurd hmem1 hbp
          · exact Or.inr (List.mem_append_left fresh hmem2)
  · have hold := hinv.visit_count
    rw [List.filter_cons_of_pos (by simpa using hb), List.length_cons] at hold
    have hdisjf : Disjoint (v.filter (fun x => inBounds x))
        (fresh.toFinset.filter (fun x => inBounds x)) := by
      refine Finset.disjoint_left.2 ?_
      intro x hxv hxf
      exact hdisj x (List.mem_toFinset.1 (Finset.mem_of_mem_filter x hxf))
        (Finset.mem_of_mem_filter x hxv)
    have hcard : ((v ∪ fresh.toFinset).filter (fun x => inBounds x)).card =
        (v.filter (fun x => inBounds x)).card +
          (fresh.toFinset.filter (fun x => inBounds x)).card := by
      rw [Finset.filter_union, Finset.card_union_of_disjoint hdisjf]
    have hff : fresh.toFinset.filter (fun x => inBounds x) =
        (fresh.filter (fun x => decide (inBounds x))).toFinset := by
      ext x
      simp [List.mem_filter, List.mem_toFinset, Finset.mem_filter]
    have hffcard : (fresh.toFinset.filter (fun x => inBounds x)).card =
        (fresh.filter (fun x => decide (inBounds x))).length := by
      rw [hff, List.toFinset_card_of_nodup (hnd.filter _)]
    rw [List.filter_append, List.length_append, hcard, hffcard]
    omega

theorem FillInv.init {c0 : Canvas} {T E : Color} {s : Point}
    (hTE : T ≠ E) (hs : inBounds s) (hc0 : c0 s = T) :
    FillInv c0 T E s c0 [s] {s} 0 where
  seed_vis := Finset.mem_singleton_self s
  diff := fun _ => Or.inl rfl
  queue_reach := by
    intro x hx _ _
    rcases List.mem_singleton.1 hx with rfl
    exact Reach.base hs hc0
  vis_box := by
    intro x hx
    rcases Finset.mem_singleton.1 hx with rfl
    exact inBounds_mem_extBox hs
  queue_vis := by
    intro x hx
    rcases List.mem_singleton.1 hx with rfl
    exact Finset.mem_singleton_self _
  queue_nodup := List.nodup_singleton s
  pending := by
    intro x hx _ _
    rcases Finset.mem_singleton.1 hx with rfl
    exact Or.inl (List.mem_singleton_self _)
  frontier := by
    intro a _ haE ha0 _ _ _
    exact absurd (ha0.symm.trans haE) hTE
  visit_count := by
    rw [List.filter_cons_of_pos (by simpa using hs), Finset.filter_singleton,
      if_pos hs]
    simp

theorem floodLoop_run {c0 : Canvas} {T E : Color} {s : Point} (hTE : T ≠ E) :
    ∀ (fuel : ℕ) (c : Canvas) (q : List Point) (v : Finset Point) (cnt : ℕ),
      FillInv c0 T E s c q v cnt →
      q.length + (482804 - v.card) < fuel →
      ∃ c' v' n, floodLoop T E fuel c q v cnt = some (c', n) ∧
        FillInv c0 T E s c' [] v' n := by
  intro fuel
  induction fuel with
  | zero =>
    intro c q v cnt _ hm
    exact absurd hm (Nat.not_lt_zero _)
  | succ fuel ih =>
    intro c q v cnt hinv hm
    cases q with
    | nil => exact ⟨c, v, cnt, floodLoop_nil T E fuel c v cnt, hinv⟩
    | cons p q =>
      by_cases hb : inBounds p
      · by_cases hcp : c p = T
        · rw [floodLoop_cons_hit T E fuel c p q v cnt hb hcp]
          obtain ⟨fresh, h1, h2, h3, h4, h5, h6⟩ := pushList_spec (neighbors p) q v
          rw [h1, h2]
          have hinv' := hinv.hit_step hTE hb hcp fresh h3 h4 h5 h6
          refine ih _ _ _ _ hinv' ?_
          have hcard2 : (v ∪ fresh.toFinset).card = v.card + fresh.length := by
            rw [Finset.card_union_of_disjoint
              (Finset.disjoint_left.2 (fun x hxv hxf => h4 x (List.mem_toFinset.1 hxf) hxv)),
              List.toFinset_card_of_nodup h3]
          have hle : (v ∪ fresh.toFinset).card ≤ 482804 := hinv'.card_le
          rw [hcard2] at hle
          rw [List.length_append, hcard2]
          rw [List.length_cons] at hm
          omega
        · rw [floodLoop_cons_skip T E fuel c p q v cnt hb hcp]
          refine ih _ _ _ _ (hinv.skip_step hb hcp) ?_
          rw [List.length_cons] at hm
          omega
      · rw [floodLoop_cons_oob T E fuel c p q v cnt hb]
        refine ih _ _ _ _ (hinv.oob_step hb) ?_
        rw [List.length_cons] at hm
        omega

theorem fillFinal_reached {c0 : Canvas} {T E : Color} {s : Point} {c : Canvas}
    {v : Finset Point} {n : ℕ} (hinv : FillInv c0 T E s c [] v n) :
    ∀ p, Reach c0 T s p → c p = E := by
  intro p h
  induction h with
  | base hs hcs =>
    rcases hinv.pending s hinv.seed_vis hs hcs with hmem | hE
    · exact absurd hmem (List.not_mem_nil s)
    · exact hE
  | step hr hadj hbp hc0p ih =>
    rcases hinv.frontier _ _ ih (reach_color hr) hadj hbp hc0p with hE | hmem
    · exact hE
    · exact absurd hmem (List.not_mem_nil _)

theorem fillFinal_unreached {c0 : Canvas} {T E : Color} {s : Point} {c : Canvas}
    {v : Finset Point} {n : ℕ} (hinv : FillInv c0 T E s c [] v n) :
    ∀ p, ¬ Reach c0 T s p → c p = c0 p := by
  intro p h
  rcases hinv.diff p with hd | ⟨_, _, hr⟩
  · exact hd
  · exact absurd hr h

theorem fillFinal_count {c0 : Canvas} {T E : Color} {s : Point} {c : Canvas}
    {v : Finset Point} {n : ℕ} (hinv : FillInv c0 T E s c [] v n) :
    n ≤ 480000 := by
  have h1 := hinv.visit_count
  simp only [List.filter_nil, List.length_nil, Nat.add_zero] at h1
  have h2 : v.filter (fun x => inBounds x) ⊆ boundsBox := by
    intro x hx
    exact mem_boundsBox_iff.2 (Finset.mem_filter.1 hx).2
  have h3 := Finset.card_le_card h2
  rw [boundsBox_card] at h3
  omega

theorem fill_bucket_run_eq {c : Canvas} {s : Point} {E : Color}
    (hs : inBounds s) (hne : c s ≠ E) :
    fill_bucket_run c s E = floodLoop (c s) E fill_fuel c [s] {s} 0 := by
  unfold fill_bucket_run get_at
  rw [if_pos hs]
  simp [hne]

theorem fill_bucket_run_noop {c : Canvas} {s : Point} {E : Color}
    (hs : inBounds s) (heq : c s = E) :
    fill_bucket_run c s E = some (c, 0) := by
  unfold fill_bucket_run get_at
  rw [if_pos hs]
  simp [heq]

/-- Claim C1: for every canvas and every in-bounds seed whose color differs
from the fill color `E`, `fill_bucket` succeeds and recolors to `E` exactly
the pixels 4-connected to the seed through the seed's color (orthogonal
adjacency only), leaving every other pixel unchanged — in particular,
same-colored regions separated by a one-pixel line of another color are not
merged, since `Reach` steps only through orthogonal neighbors. -/
theorem C1_flood_fill_exact (c0 : Canvas) (s : Point) (E : Color)
    (hs : inBounds s) (hne : c0 s ≠ E) :
    ∃ c', fill_bucket c0 s E = some c' ∧
      (∀ p, Reach c0 (c0 s) s p → c' p = E) ∧
      (∀ p, ¬ Reach c0 (c0 s) s p → c' p = c0 p) := by
  obtain ⟨c', v', n, hrun, hfin⟩ :=
    floodLoop_run hne fill_fuel c0 [s] {s} 0 (FillInv.init hne hs rfl)
      (by rw [List.length_singleton, Finset.card_singleton]; norm_num [fill_fuel])
  refine ⟨c', ?_, fillFinal_reached hfin, fillFinal_unreached hfin⟩
  unfold fill_bucket
  rw [fill_bucket_run_eq hs hne, hrun]
  rfl

/-- Witness for C1: filling an all-white canvas with black from the origin. -/
theorem C1_flood_fill_exact_witness :
    ∃ c', fill_bucket (fun _ => WHITE) (0, 0) BLACK = some c' ∧
      (∀ p, Reach (fun _ => WHITE) WHITE (0, 0) p → c' p = BLACK) ∧
      (∀ p, ¬ Reach (fun _ => WHITE) WHITE (0, 0) p → c' p = WHITE) :=
  C1_flood_fill_exact (fun _ => WHITE) (0, 0) BLACK (by decide) (by decide)

/-- Claim C6: for every canvas and in-bounds seed the fill terminates —
`floodLoop` returns within `fill_fuel = (CANVAS_WIDTH+2)*(CANVAS_HEIGHT+2)+1`
dequeues, because every coordinate is enqueued at most once into the
visited set — and the number of iterations that access the canvas is at
most `CANVAS_WIDTH * CANVAS_HEIGHT = 480000` cell visits. -/
theorem C6_flood_fill_terminates (c : Canvas) (s : Point) (E : Color)
    (hs : inBounds s) :
    ∃ r, fill_bucket_run c s E = some r ∧ r.2 ≤ 480000 := by
  by_cases hne : c s = E
  · exact ⟨(c, 0), fill_bucket_run_noop hs hne, by norm_num⟩
  · obtain ⟨c', v', n, hrun, hfin⟩ :=
      floodLoop_run hne fill_fuel c [s] {s} 0 (FillInv.init hne hs rfl)
        (by rw [List.length_singleton, Finset.card_singleton]; norm_num [fill_fuel])
    refine ⟨(c', n), ?_, fillFinal_count hfin⟩
    rw [fill_bucket_run_eq hs hne, hrun]

/-- Witness for C6: a fill on an all-white canvas seeded at (1,2). -/
theorem C6_flood_fill_terminates_witness :
    ∃ r, fill_bucket_run (fun _ => WHITE) (1, 2) RED = some r ∧ r.2 ≤ 480000 :=
  C6_flood_fill_terminates (fun _ => WHITE) (1, 2) RED (by decide)

/-- Claim C10: for every in-bounds seed the fill is total — it returns a
canvas rather than a bounds error (every dequeued coordinate is
bounds-checked before the `get_at`/`set_at` calls, and the seed read is in
bounds) — and no out-of-bounds pixel of the model raster is ever written. -/
theorem C10_flood_fill_bounds_safe (c : Canvas) (s : Point) (E : Color)
    (hs : inBounds s) :
    ∃ c', fill_bucket c s E = some c' ∧ ∀ p, ¬ inBounds p → c' p = c p := by
  by_cases hne : c s = E
  · refine ⟨c, ?_, fun p _ => rfl⟩
    unfold fill_bucket
    rw [fill_bucket_run_noop hs hne]
    rfl
  · obtain ⟨c', v', n, hrun, hfin⟩ :=
      floodLoop_run hne fill_fuel c [s] {s} 0 (FillInv.init hne hs rfl)
        (by rw [List.length_singleton, Finset.card_singleton]; norm_num [fill_fuel])
    refine ⟨c', ?_, ?_⟩
    · unfold fill_bucket
      rw [fill_bucket_run_eq hs hne, hrun]
      rfl
    · intro p hp
      exact fillFinal_unreached hfin p (fun hr => hp (reach_inBounds hr))

/-- Witness for C10: a fill on an all-white canvas seeded at (3,4). -/
theorem C10_flood_fill_bounds_safe_witness :
    ∃ c', fill_bucket (fun _ => WHITE) (3, 4) BLACK = some c' ∧
      ∀ p, ¬ inBounds p → c' p = WHITE :=
  C10_flood_fill_bounds_safe (fun _ => WHITE) (3, 4) BLACK (by decide)
